import Mathlib

/-!
Shallow embedding of the WaterKontrol server (src/index.js) for verification.

Conventions used throughout:
* a time of day is its minute index 0..1439 (the code stores strings "HH:MM"
  produced with padStart and compares them for equality; the rendering of a
  minute index as "HH:MM" is injective on 0..1439, so minute indices are a
  faithful model);
* a weekday is `Fin 7` indexed by the array dayOrder = [D, L, M, X, J, V, S]
  used by the code, which coincides with JavaScript getUTCDay numbering
  (0 = Sunday, 1 = Monday, ...) and with the diaMap of ejecutarHorarios;
* JavaScript `Math.floor(a / b)` on integers is `Int.fdiv`, and the
  JavaScript remainder operator (sign of the dividend) is `Int.tmod`.
-/

namespace WaterKontrol

/-- Result of the `toUtc` helper of the schedule-save endpoints: the
normalized minute of day and the day delta. -/
structure UtcTime where
  time : Nat
  delta : Int
deriving DecidableEq, Repr

/-- `toUtc` from src/index.js lines 559-567: total = h*60+m+offsetMin,
delta = Math.floor(total/1440), norm = ((total % 1440) + 1440) % 1440,
returning the normalized time and the day delta. -/
def toUtc (t : Nat) (off : Int) : UtcTime :=
  { time := (((((t : Int) + off).tmod 1440) + 1440).tmod 1440).toNat,
    delta := ((t : Int) + off).fdiv 1440 }

/-- One day through `shiftDays` (src/index.js lines 552-557):
dayOrder[(idx + delta + 7) % 7]; an out-of-range array index yields
undefined, which the subsequent filter(Boolean) drops, hence `Option`. -/
def shiftDay (d : Fin 7) (delta : Int) : Option (Fin 7) :=
  let i := ((d : Int) + delta + 7).tmod 7
  if h : 0 ≤ i ∧ i < 7 then some ⟨i.toNat, by omega⟩ else none

/-- `shiftDays` of the schedule-save endpoint, acting on the set of days. -/
def shiftDays (days : Finset (Fin 7)) (delta : Int) : Finset (Fin 7) :=
  days.biUnion (fun d => (shiftDay d delta).toFinset)

/-- A stored UTC schedule triple as produced by the endpoint. -/
structure UtcSchedule where
  start : Nat
  stop : Nat
  days : Finset (Fin 7)
deriving DecidableEq

/-- The local-to-UTC normalization of POST /api/dispositivo/horarios
(src/index.js lines 550-581): convert both times with `toUtc`, shift the
day set by the start delta, and union in the end-delta shift only when the
two deltas differ. -/
def normalizeToUtc (startT stopT : Nat) (days : Finset (Fin 7)) (off : Int) :
    UtcSchedule :=
  let s := toUtc startT off
  let e := toUtc stopT off
  let ds := shiftDays days s.delta ∪
    (if e.delta ≠ s.delta then shiftDays days e.delta else ∅)
  { start := s.time, stop := e.time, days := ds }

/-! Arithmetic facts about the JavaScript-style operators used by toUtc. -/

theorem neg_tmod_left (a b : Int) : (-a).tmod b = -(a.tmod b) := by
  rw [Int.tmod_def, Int.tmod_def, Int.neg_tdiv]
  ring

theorem tmod_norm_eq_emod (a : Int) : ((a.tmod 1440) + 1440).tmod 1440 = a % 1440 := by
  rcases le_or_lt 0 a with ha | ha
  · have h1 : (0 : Int) ≤ a.tmod 1440 := Int.tmod_nonneg _ ha
    rw [Int.tmod_eq_emod ha (by norm_num), Int.tmod_eq_emod (by omega) (by norm_num)]
    omega
  · have hc : (0 : Int) ≤ -a := by omega
    have h1 : a.tmod 1440 = -((-a).tmod 1440) := by
      have h2 := neg_tmod_left (-a) 1440
      rw [neg_neg] at h2
      omega
    rw [Int.tmod_eq_emod hc (by norm_num)] at h1
    have h3 : -a % 1440 < 1440 := Int.emod_lt_of_pos (-a) (by norm_num)
    have h4 : (0 : Int) ≤ -a % 1440 := Int.emod_nonneg _ (by norm_num)
    rw [h1, Int.tmod_eq_emod (by omega) (by norm_num)]
    omega

theorem toUtc_eq (t : Nat) (off : Int) :
    toUtc t off =
      { time := (((t : Int) + off) % 1440).toNat, delta := ((t : Int) + off) / 1440 } := by
  unfold toUtc
  rw [tmod_norm_eq_emod, Int.fdiv_eq_ediv _ (by norm_num)]

theorem toUtc_delta_range (t : Nat) (off : Int) (ht : t < 1440)
    (hlo : -720 ≤ off) (hhi : off ≤ 840) :
    (toUtc t off).delta = -1 ∨ (toUtc t off).delta = 0 ∨ (toUtc t off).delta = 1 := by
  rw [toUtc_eq]
  dsimp only
  omega

theorem toUtc_inv (t : Nat) (off : Int) (ht : t < 1440) :
    toUtc (toUtc t off).time (-off) = { time := t, delta := -(toUtc t off).delta } := by
  rw [toUtc_eq, toUtc_eq]
  simp only [UtcTime.mk.injEq]
  constructor
  · omega
  · omega

/-! Facts about the day-set shift. -/

theorem shiftDay_total (δ : Int) (hδ : δ = -1 ∨ δ = 0 ∨ δ = 1) (d : Fin 7) :
    ∃ d2, shiftDay d δ = some d2 := by
  rcases hδ with h | h | h <;> subst h <;> revert d <;> decide

theorem shiftDay_cancel (δ : Int) (hδ : δ = -1 ∨ δ = 0 ∨ δ = 1) (b d : Fin 7)
    (h : shiftDay b δ = some d) : shiftDay d (-δ) = some b := by
  rcases hδ with h1 | h1 | h1 <;> subst h1 <;> revert h <;> revert b d <;> decide

theorem mem_shiftDays {days : Finset (Fin 7)} {δ : Int} {d : Fin 7} :
    d ∈ shiftDays days δ ↔ ∃ c ∈ days, shiftDay c δ = some d := by
  simp [shiftDays, Finset.mem_biUnion, Option.mem_toFinset, Option.mem_def, eq_comm]

theorem shiftDays_cancel (days : Finset (Fin 7)) (δ : Int)
    (hδ : δ = -1 ∨ δ = 0 ∨ δ = 1) :
    shiftDays (shiftDays days δ) (-δ) = days := by
  ext d
  simp only [mem_shiftDays]
  constructor
  · rintro ⟨c, ⟨b, hb, hbc⟩, hcd⟩
    have h2 := shiftDay_cancel δ hδ b c hbc
    rw [h2] at hcd
    cases hcd
    exact hb
  · intro hd
    obtain ⟨c, hc⟩ := shiftDay_total δ hδ d
    exact ⟨c, ⟨d, hd, hc⟩, shiftDay_cancel δ hδ d c hc⟩

/-! Unfolding lemmas for normalizeToUtc. -/

theorem normalizeToUtc_start (a b : Nat) (days : Finset (Fin 7)) (off : Int) :
    (normalizeToUtc a b days off).start = (toUtc a off).time := rfl

theorem normalizeToUtc_stop (a b : Nat) (days : Finset (Fin 7)) (off : Int) :
    (normalizeToUtc a b days off).stop = (toUtc b off).time := rfl

theorem normalizeToUtc_days_of_eq (a b : Nat) (days : Finset (Fin 7)) (off : Int)
    (h : (toUtc b off).delta = (toUtc a off).delta) :
    (normalizeToUtc a b days off).days = shiftDays days (toUtc a off).delta := by
  simp [normalizeToUtc, h]

theorem normalizeToUtc_days_of_ne (a b : Nat) (days : Finset (Fin 7)) (off : Int)
    (h : (toUtc b off).delta ≠ (toUtc a off).delta) :
    (normalizeToUtc a b days off).days =
      shiftDays days (toUtc a off).delta ∪ shiftDays days (toUtc b off).delta := by
  simp [normalizeToUtc, h]

/-- C2, counterexample: the round trip is NOT the identity for every input in
the claimed range.  For local start 23:50, end 00:10, days {Monday} and
offset +300 the two day deltas differ, the stored day set becomes the union
{Monday, Tuesday}, and renormalizing with offset -300 yields the strictly
larger day set {Sunday, Monday, Tuesday}, not the original triple. -/
theorem claim2_counterexample :
    normalizeToUtc (normalizeToUtc 1430 10 {1} 300).start
      (normalizeToUtc 1430 10 {1} 300).stop
      (normalizeToUtc 1430 10 {1} 300).days (-300)
      ≠ { start := 1430, stop := 10, days := ({1} : Finset (Fin 7)) } := by
  intro h
  have h0 : (0 : Fin 7) ∈
      (normalizeToUtc (normalizeToUtc 1430 10 {1} 300).start
        (normalizeToUtc 1430 10 {1} 300).stop
        (normalizeToUtc 1430 10 {1} 300).days (-300)).days := by decide
  rw [h] at h0
  exact absurd h0 (by decide)

/-- C2 (amended): converting a local schedule to UTC and back with the
opposite-sign offset reproduces the original (start, stop, days) triple for
all offsets in [-720, +840] and non-empty day sets, PROVIDED the start and
end boundaries produce the same day delta; when the deltas differ the
round trip need not reproduce the original triple (see the
counterexample). -/
theorem claim2_roundtrip (startT stopT : Nat) (days : Finset (Fin 7)) (off : Int)
    (hs : startT < 1440) (he : stopT < 1440)
    (hlo : -720 ≤ off) (hhi : off ≤ 840) (hne : days.Nonempty)
    (hdelta : (toUtc stopT off).delta = (toUtc startT off).delta) :
    normalizeToUtc (normalizeToUtc startT stopT days off).start
      (normalizeToUtc startT stopT days off).stop
      (normalizeToUtc startT stopT days off).days (-off)
      = { start := startT, stop := stopT, days := days } := by
  have hδ := toUtc_delta_range startT off hs hlo hhi
  have h1 := toUtc_inv startT off hs
  have h2 := toUtc_inv stopT off he
  rw [normalizeToUtc_start, normalizeToUtc_stop,
    normalizeToUtc_days_of_eq _ _ _ _ hdelta]
  simp only [normalizeToUtc, UtcSchedule.mk.injEq, h1, h2, hdelta]
  refine ⟨trivial, trivial, ?_⟩
  simp only [ne_eq, not_true_eq_false, if_false, Finset.union_empty]
  exact shiftDays_cancel days _ hδ

/-- C2, witness for the amended round-trip theorem at a concrete input. -/
theorem claim2_roundtrip_witness :
    (600 < 1440 ∧ 660 < 1440 ∧ (-720 : Int) ≤ 300 ∧ (300 : Int) ≤ 840 ∧
      ({2} : Finset (Fin 7)).Nonempty ∧ (toUtc 660 300).delta = (toUtc 600 300).delta)
    ∧ normalizeToUtc (normalizeToUtc 600 660 {2} 300).start
        (normalizeToUtc 600 660 {2} 300).stop
        (normalizeToUtc 600 660 {2} 300).days (-300)
        = { start := 600, stop := 660, days := ({2} : Finset (Fin 7)) } :=
  ⟨⟨by decide, by decide, by decide, by decide, by decide, by decide⟩,
    claim2_roundtrip 600 660 {2} 300 (by decide) (by decide) (by decide) (by decide)
      (by decide) (by decide)⟩

/-- C3: when the day delta of the converted start time differs from the day
delta of the converted end time, the stored UTC day set is exactly the union
of the day set shifted by the start delta and the day set shifted by the end
delta; in particular every original day contributes both its shifted-start
day and its shifted-end day. -/
theorem claim3_day_union (startT stopT : Nat) (days : Finset (Fin 7)) (off : Int)
    (hdelta : (toUtc startT off).delta ≠ (toUtc stopT off).delta) :
    (normalizeToUtc startT stopT days off).days
      = shiftDays days (toUtc startT off).delta ∪ shiftDays days (toUtc stopT off).delta
    ∧ ∀ d ∈ days,
        (∀ d1, shiftDay d (toUtc startT off).delta = some d1 →
          d1 ∈ (normalizeToUtc startT stopT days off).days)
        ∧ (∀ d2, shiftDay d (toUtc stopT off).delta = some d2 →
          d2 ∈ (normalizeToUtc startT stopT days off).days) := by
  have hU := normalizeToUtc_days_of_ne startT stopT days off (Ne.symm hdelta)
  refine ⟨hU, fun d hd => ⟨fun d1 h1 => ?_, fun d2 h2 => ?_⟩⟩
  · rw [hU]
    exact Finset.mem_union_left _ (mem_shiftDays.mpr ⟨d, hd, h1⟩)
  · rw [hU]
    exact Finset.mem_union_right _ (mem_shiftDays.mpr ⟨d, hd, h2⟩)

/-- C3, witness: local start 23:50, end 00:10, days {Monday}, offset -300
(UTC-5); the start delta is 0, the end delta is -1, and the stored UTC day
set is the union of both shifts, containing shifted Monday and shifted
Sunday. -/
theorem claim3_day_union_witness :
    ((toUtc 1430 (-300)).delta ≠ (toUtc 10 (-300)).delta)
    ∧ ((normalizeToUtc 1430 10 {1} (-300)).days
        = shiftDays {1} (toUtc 1430 (-300)).delta ∪ shiftDays {1} (toUtc 10 (-300)).delta
      ∧ ∀ d ∈ ({1} : Finset (Fin 7)),
          (∀ d1, shiftDay d (toUtc 1430 (-300)).delta = some d1 →
            d1 ∈ (normalizeToUtc 1430 10 {1} (-300)).days)
          ∧ (∀ d2, shiftDay d (toUtc 10 (-300)).delta = some d2 →
            d2 ∈ (normalizeToUtc 1430 10 {1} (-300)).days)) :=
  ⟨by decide, claim3_day_union 1430 10 {1} (-300) (by decide)⟩

/-! ## The schedule actuation engine (ejecutarHorarios) -/

/-- A row of the horarios table.  dias_semana is stored as a comma-joined
string of day letters; its split is used only through membership, so the
set of day indices is a faithful model. -/
structure Horario where
  horario_id : Nat
  serial : String
  dias_semana : Finset (Fin 7)
  hora_inicio : Nat
  hora_fin : Nat
  activo : Bool
deriving DecidableEq

/-- A row of the registro table, restricted to the fields the embedded
code reads or writes. -/
structure Registro where
  rgt_id : Nat
  usr_id : Nat
  serial : String
  topic : String
  ultima_conexion : Nat
  estatus : String
deriving DecidableEq, Repr

/-- The tick instant: its UTC weekday (getUTCDay) and minute of day. -/
structure Ahora where
  weekday : Fin 7
  minutes : Nat
deriving DecidableEq, Repr

/-- An outbound MQTT publish of ejecutarHorarios: the topic and the two
payload fields of the JSON body. -/
structure Command where
  topic : String
  bomba : String
  valvula : String
deriving DecidableEq, Repr

/-- The turn-on payload of src/index.js lines 1116-1119. -/
def encenderCmd (t : String) : Command :=
  { topic := t, bomba := "encendida", valvula := "cerrada" }

/-- The turn-off payload of src/index.js lines 1131-1134. -/
def apagarCmd (t : String) : Command :=
  { topic := t, bomba := "apagada", valvula := "abierta" }

/-- The commands the inner loop of ejecutarHorarios emits for one schedule
row (src/index.js lines 1102-1144): continue if the current weekday is not
in dias_semana, publish the turn-on payload if the minute equals
hora_inicio, then the turn-off payload if it equals hora_fin. -/
def horarioCmds (topicIn : String) (h : Horario) (now : Ahora) : List Command :=
  if now.weekday ∈ h.dias_semana then
    (if now.minutes = h.hora_inicio then [encenderCmd topicIn] else []) ++
      (if now.minutes = h.hora_fin then [apagarCmd topicIn] else [])
  else []

/-- The SQL join of ejecutarHorarios (src/index.js lines 1064-1069): the
rows of horarios with activo = true joined with registro on serial, each
row carrying the registro topic. -/
def joinActivos (hs : List Horario) (rs : List Registro) : List (Horario × String) :=
  (hs.filter (·.activo)).flatMap (fun h =>
    (rs.filter (fun r => r.serial == h.serial)).map (fun r => (h, r.topic)))

/-- The keys of the horariosPorSerial grouping object (src/index.js lines
1088-1094), in first-insertion order as JavaScript objects iterate. -/
def serialKeys (rows : List (Horario × String)) : List String :=
  rows.foldl (fun ks hr => if hr.1.serial ∈ ks then ks else ks ++ [hr.1.serial]) []

/-- The group of joined rows for one serial. -/
def grupo (rows : List (Horario × String)) (s : String) : List (Horario × String) :=
  rows.filter (fun hr => hr.1.serial == s)

/-- ejecutarHorarios (src/index.js lines 1056-1151) as a pure function of
the store state and the tick instant, returning the published commands in
order: group the joined active rows by serial, use the topic of the first
row of each group with the "/in" suffix, and emit the per-schedule
commands. -/
def ejecutarHorarios (hs : List Horario) (rs : List Registro) (now : Ahora) :
    List Command :=
  (serialKeys (joinActivos hs rs)).flatMap (fun s =>
    match grupo (joinActivos hs rs) s with
    | [] => []
    | hr0 :: rest =>
      (hr0 :: rest).flatMap (fun hr => horarioCmds (hr0.2 ++ "/in") hr.1 now))

/-! Helper lemmas: the grouped iteration is a permutation of the joined
rows, so the multiset of published commands admits a per-row description. -/

theorem flatMap_congr_mem {α β : Type} {l : List α} {f g : α → List β}
    (h : ∀ x ∈ l, f x = g x) : l.flatMap f = l.flatMap g := by
  induction l with
  | nil => rfl
  | cons a t ih =>
    simp only [List.flatMap_cons]
    rw [h a (by simp), ih (fun x hx => h x (by simp [hx]))]

theorem serialKeys_aux (rows : List (Horario × String)) (acc : List String)
    (hacc : acc.Nodup) :
    (rows.foldl (fun ks hr =>
      if hr.1.serial ∈ ks then ks else ks ++ [hr.1.serial]) acc).Nodup
    ∧ (∀ x ∈ acc, x ∈ rows.foldl (fun ks hr =>
        if hr.1.serial ∈ ks then ks else ks ++ [hr.1.serial]) acc)
    ∧ (∀ hr ∈ rows, hr.1.serial ∈ rows.foldl (fun ks hr =>
        if hr.1.serial ∈ ks then ks else ks ++ [hr.1.serial]) acc) := by
  induction rows generalizing acc with
  | nil => exact ⟨hacc, fun x hx => hx, fun hr hhr => absurd hhr (by simp)⟩
  | cons a t ih =>
    have hstep : (if a.1.serial ∈ acc then acc else acc ++ [a.1.serial]).Nodup := by
      by_cases hmem : a.1.serial ∈ acc
      · simpa [hmem] using hacc
      · simp only [hmem, if_false]
        simp [List.nodup_append, hacc, hmem]
    obtain ⟨h1, h2, h3⟩ := ih _ hstep
    refine ⟨h1, ?_, ?_⟩
    · intro x hx
      apply h2
      by_cases hmem : a.1.serial ∈ acc <;> simp [hmem, hx]
    · intro hr hhr
      rcases List.mem_cons.mp hhr with hhr | hhr
      · subst hhr
        apply h2
        by_cases hmem : hr.1.serial ∈ acc <;> simp [hmem]
      · exact h3 hr hhr

theorem serialKeys_nodup (rows : List (Horario × String)) : (serialKeys rows).Nodup :=
  (serialKeys_aux rows [] List.nodup_nil).1

theorem mem_serialKeys (rows : List (Horario × String)) :
    ∀ hr ∈ rows, hr.1.serial ∈ serialKeys rows :=
  (serialKeys_aux rows [] List.nodup_nil).2.2

theorem flatMap_grupo_perm (ks : List String) (rows : List (Horario × String))
    (hks : ks.Nodup) (hcov : ∀ hr ∈ rows, hr.1.serial ∈ ks) :
    (ks.flatMap (fun s => grupo rows s)).Perm rows := by
  induction ks generalizing rows with
  | nil =>
    cases rows with
    | nil => simp
    | cons a t => exact absurd (hcov a (by simp)) (by simp)
  | cons s ks ih =>
    simp only [List.flatMap_cons]
    have hsk : s ∉ ks := (List.nodup_cons.mp hks).1
    have hnd : ks.Nodup := (List.nodup_cons.mp hks).2
    have hcongr : ks.flatMap (fun s2 => grupo rows s2)
        = ks.flatMap (fun s2 =>
            grupo (rows.filter (fun hr => !(hr.1.serial == s))) s2) := by
      apply flatMap_congr_mem
      intro s2 hs2
      have hne : s2 ≠ s := fun hEq => hsk (hEq ▸ hs2)
      unfold grupo
      rw [List.filter_filter]
      apply List.filter_congr
      intro hr _
      by_cases hcase : hr.1.serial = s2
      · simp [hcase, hne]
      · simp [hcase]
    rw [hcongr]
    have hcov2 : ∀ hr ∈ rows.filter (fun hr => !(hr.1.serial == s)),
        hr.1.serial ∈ ks := by
      intro hr hhr
      have hm := List.mem_filter.mp hhr
      have := hcov hr hm.1
      rcases List.mem_cons.mp this with hEq | hIn
      · exfalso
        have := hm.2
        simp [hEq] at this
      · exact hIn
    have hperm := ih (rows.filter (fun hr => !(hr.1.serial == s))) hnd hcov2
    have hfin : (List.filter (fun hr => hr.1.serial == s) rows ++
        List.filter (fun hr => !(hr.1.serial == s)) rows).Perm rows := by
      simpa using List.filter_append_perm (fun hr => hr.1.serial == s) rows
    exact (hperm.append_left (grupo rows s)).trans hfin

theorem mem_joinActivos {hs : List Horario} {rs : List Registro}
    {hr : Horario × String} :
    hr ∈ joinActivos hs rs ↔
      (hr.1 ∈ hs ∧ hr.1.activo = true ∧
        ∃ r ∈ rs, r.serial = hr.1.serial ∧ hr.2 = r.topic) := by
  unfold joinActivos
  rcases hr with ⟨h, t⟩
  simp only [List.mem_flatMap, List.mem_map, List.mem_filter, Prod.mk.injEq]
  constructor
  · rintro ⟨h2, ⟨hh2, hact⟩, r, ⟨hrmem, hser⟩, hEq, hEq2⟩
    subst hEq
    exact ⟨hh2, hact, r, hrmem, by simpa using hser, hEq2.symm⟩
  · rintro ⟨hh, hact, r, hrmem, hser, hEq⟩
    exact ⟨h, ⟨hh, hact⟩, r, ⟨hrmem, by simpa using hser⟩, rfl, hEq.symm⟩

theorem joinActivos_topic_eq {hs : List Horario} {rs : List Registro}
    (hnd : (rs.map (·.serial)).Nodup)
    {hr1 hr2 : Horario × String} (m1 : hr1 ∈ joinActivos hs rs)
    (m2 : hr2 ∈ joinActivos hs rs) (hser : hr1.1.serial = hr2.1.serial) :
    hr1.2 = hr2.2 := by
  obtain ⟨-, -, r1, hr1m, hs1, ht1⟩ := mem_joinActivos.mp m1
  obtain ⟨-, -, r2, hr2m, hs2, ht2⟩ := mem_joinActivos.mp m2
  have : r1 = r2 := by
    apply List.inj_on_of_nodup_map hnd hr1m hr2m
    show r1.serial = r2.serial
    rw [hs1, hs2]
    exact hser
  rw [ht1, ht2, this]

theorem ejecutarHorarios_perm (hs : List Horario) (rs : List Registro)
    (now : Ahora) (hnd : (rs.map (·.serial)).Nodup) :
    (ejecutarHorarios hs rs now).Perm
      ((joinActivos hs rs).flatMap
        (fun hr => horarioCmds (hr.2 ++ "/in") hr.1 now)) := by
  unfold ejecutarHorarios
  have hstep : ∀ s,
      (match grupo (joinActivos hs rs) s with
        | [] => []
        | hr0 :: rest =>
          (hr0 :: rest).flatMap (fun hr => horarioCmds (hr0.2 ++ "/in") hr.1 now))
      = (grupo (joinActivos hs rs) s).flatMap
          (fun hr => horarioCmds (hr.2 ++ "/in") hr.1 now) := by
    intro s
    cases hgrp : grupo (joinActivos hs rs) s with
    | nil => simp
    | cons hr0 rest =>
      simp only []
      apply flatMap_congr_mem
      intro hr hmem
      have hsub : ∀ x ∈ grupo (joinActivos hs rs) s, x ∈ joinActivos hs rs ∧
          x.1.serial = s := by
        intro x hx
        have := List.mem_filter.mp hx
        exact ⟨this.1, by simpa using this.2⟩
      have h0 := hsub hr0 (hgrp ▸ List.mem_cons_self hr0 rest)
      have h1 := hsub hr (hgrp ▸ hmem)
      have : hr0.2 = hr.2 :=
        joinActivos_topic_eq hnd h0.1 h1.1 (h0.2.trans h1.2.symm)
      rw [this]
  have hcongr := flatMap_congr_mem
    (l := serialKeys (joinActivos hs rs)) (fun s _ => hstep s)
  rw [hcongr, ← List.flatMap_assoc]
  exact List.Perm.flatMap_right _
    (flatMap_grupo_perm _ _ (serialKeys_nodup _) (mem_serialKeys _))

/-! Counting lemmas for the emitted commands. -/

theorem count_flatMap {α β : Type} [DecidableEq β] (c : β) (l : List α)
    (f : α → List β) :
    ((l.flatMap f).count c) = (l.map (fun x => (f x).count c)).sum := by
  induction l with
  | nil => rfl
  | cons a t ih => simp [List.flatMap_cons, List.count_append, ih]

theorem sum_map_flatMap {α β : Type} (l : List α) (g : α → List β) (F : β → Nat) :
    ((l.flatMap g).map F).sum = (l.map (fun x => ((g x).map F).sum)).sum := by
  induction l with
  | nil => rfl
  | cons a t ih => simp [List.flatMap_cons, ih]

theorem sum_ite_one {α : Type} (l : List α) (p : α → Bool) :
    (l.map (fun x => if p x then 1 else 0)).sum = (l.filter p).length := by
  induction l with
  | nil => rfl
  | cons a t ih =>
    by_cases h : p a <;> simp [h, ih, List.filter_cons, Nat.add_comm]

theorem sum_indicator_not_mem {α : Type} [DecidableEq α] (L : List α)
    (r : α) (hr : r ∉ L) :
    (L.map (fun x => if x = r then 1 else 0)).sum = 0 := by
  apply List.sum_eq_zero
  intro x hx
  obtain ⟨y, hy, hyx⟩ := List.mem_map.mp hx
  by_cases hyr : y = r
  · exact absurd (hyr ▸ hy) hr
  · simp [hyr] at hyx
    omega

theorem sum_indicator_mem {α : Type} [DecidableEq α] (L : List α) (hL : L.Nodup)
    (r : α) (hr : r ∈ L) :
    (L.map (fun x => if x = r then 1 else 0)).sum = 1 := by
  induction L with
  | nil => exact absurd hr (by simp)
  | cons a t ih =>
    have hnd := List.nodup_cons.mp hL
    rcases List.mem_cons.mp hr with hra | hrt
    · subst hra
      rw [List.map_cons, List.sum_cons, sum_indicator_not_mem t r hnd.1]
      simp
    · have har : ¬ (a = r) := fun hEq => hnd.1 (hEq ▸ hrt)
      simp [har, ih hnd.2 hrt]

/-- Evaluation of the grouped double sum: with distinct topics per
registro, the commands addressed to a given registro topic are counted by
the schedules for that serial satisfying the condition. -/
theorem sum_count_eval (rs : List Registro) (hs2 : List Horario) (r : Registro)
    (hndt : (rs.map (·.topic)).Nodup) (hr : r ∈ rs)
    (cond : Horario → Bool) (F : Horario → Registro → Nat)
    (hF : ∀ h r2, r2 ∈ rs → F h r2 = if cond h ∧ r2.topic = r.topic then 1 else 0) :
    (hs2.map (fun h =>
      ((rs.filter (fun r2 => r2.serial == h.serial)).map (F h)).sum)).sum
      = (hs2.filter (fun h => h.serial == r.serial && cond h)).length := by
  have hnd_rs : rs.Nodup := List.Nodup.of_map _ hndt
  induction hs2 with
  | nil => rfl
  | cons h t ih =>
    have hinner : ((rs.filter (fun r2 => r2.serial == h.serial)).map (F h)).sum
        = if h.serial == r.serial && cond h then 1 else 0 := by
      by_cases hc : cond h
      · have hpt : ∀ r2 ∈ rs.filter (fun r2 => r2.serial == h.serial),
            F h r2 = if r2 = r then 1 else 0 := by
          intro r2 hr2
          have hr2rs := (List.mem_filter.mp hr2).1
          rw [hF h r2 hr2rs]
          by_cases hrr : r2 = r
          · simp [hc, hrr]
          · have hne : ¬ (r2.topic = r.topic) := fun hEq =>
              hrr (List.inj_on_of_nodup_map hndt hr2rs hr hEq)
            simp [hc, hrr, hne]
        rw [List.map_congr_left hpt]
        by_cases hser : h.serial = r.serial
        · have hmem : r ∈ rs.filter (fun r2 => r2.serial == h.serial) :=
            List.mem_filter.mpr ⟨hr, by simp [hser]⟩
          rw [sum_indicator_mem _ (hnd_rs.filter _) r hmem]
          simp [hser, hc]
        · have hmem : r ∉ rs.filter (fun r2 => r2.serial == h.serial) := by
            intro hmem
            have hm2 := (List.mem_filter.mp hmem).2
            simp at hm2
            exact hser hm2.symm
          rw [sum_indicator_not_mem _ r hmem]
          simp [hser]
      · have hpt : ∀ r2 ∈ rs.filter (fun r2 => r2.serial == h.serial),
            F h r2 = 0 := by
          intro r2 hr2
          rw [hF h r2 (List.mem_filter.mp hr2).1]
          simp [hc]
        rw [List.map_congr_left hpt]
        have hz : ((rs.filter (fun r2 => r2.serial == h.serial)).map
            (fun _ => (0 : Nat))).sum = 0 := by
          apply List.sum_eq_zero
          intro x hx
          obtain ⟨y, hy, hyx⟩ := List.mem_map.mp hx
          omega
        rw [hz]
        simp [hc]
    rw [List.map_cons, List.sum_cons, ih, hinner, List.filter_cons]
    by_cases hb : (h.serial == r.serial && cond h) = true
    · simp [hb, Nat.add_comm]
    · simp [hb]

theorem string_append_cancel {a b : String} (c : String) (h : a ++ c = b ++ c) :
    a = b := by
  have hd := congrArg String.data h
  simp only [String.data_append] at hd
  have h2 := List.append_cancel_right hd
  cases a
  cases b
  exact congrArg String.mk h2

theorem string_append_inj (a b c : String) : a ++ c = b ++ c ↔ a = b :=
  ⟨string_append_cancel c, fun h => by rw [h]⟩

/-- The firing condition of the claim at the start boundary: the current
UTC weekday belongs to the schedule day set and the minute of day equals
hora_inicio. -/
def matchInicio (h : Horario) (now : Ahora) : Bool :=
  decide (now.weekday ∈ h.dias_semana) && (now.minutes == h.hora_inicio)

/-- The firing condition at the end boundary. -/
def matchFin (h : Horario) (now : Ahora) : Bool :=
  decide (now.weekday ∈ h.dias_semana) && (now.minutes == h.hora_fin)

theorem count_encender_horarioCmds (t tIn : String) (h : Horario) (now : Ahora) :
    (horarioCmds t h now).count (encenderCmd tIn)
      = if matchInicio h now ∧ t = tIn then 1 else 0 := by
  have hap : (List.count (encenderCmd tIn)
      (if now.minutes = h.hora_fin then [apagarCmd t] else [])) = 0 := by
    split <;> simp [encenderCmd, apagarCmd, Command.mk.injEq]
  unfold horarioCmds
  by_cases hday : now.weekday ∈ h.dias_semana
  · rw [if_pos hday, List.count_append, hap]
    by_cases hini : now.minutes = h.hora_inicio
    · rw [if_pos hini]
      by_cases ht : t = tIn
      · subst ht
        simp [matchInicio, hday, hini, encenderCmd]
      · simp [matchInicio, hday, hini, ht, encenderCmd, Command.mk.injEq,
          List.count_cons, List.count_nil]
    · rw [if_neg hini]
      simp [matchInicio, hday, hini]
  · rw [if_neg hday]
    simp [matchInicio, hday]

theorem count_apagar_horarioCmds (t tIn : String) (h : Horario) (now : Ahora) :
    (horarioCmds t h now).count (apagarCmd tIn)
      = if matchFin h now ∧ t = tIn then 1 else 0 := by
  have henc : (List.count (apagarCmd tIn)
      (if now.minutes = h.hora_inicio then [encenderCmd t] else [])) = 0 := by
    split <;> simp [encenderCmd, apagarCmd, Command.mk.injEq]
  unfold horarioCmds
  by_cases hday : now.weekday ∈ h.dias_semana
  · rw [if_pos hday, List.count_append, henc]
    by_cases hfin : now.minutes = h.hora_fin
    · rw [if_pos hfin]
      by_cases ht : t = tIn
      · subst ht
        simp [matchFin, hday, hfin, apagarCmd]
      · simp [matchFin, hday, hfin, ht, apagarCmd, Command.mk.injEq,
          List.count_cons, List.count_nil]
    · rw [if_neg hfin]
      simp [matchFin, hday, hfin]
  · rw [if_neg hday]
    simp [matchFin, hday]

theorem mem_horarioCmds {c : Command} {t : String} {h : Horario} {now : Ahora}
    (hc : c ∈ horarioCmds t h now) :
    now.weekday ∈ h.dias_semana ∧
      (now.minutes = h.hora_inicio ∨ now.minutes = h.hora_fin) ∧ c.topic = t := by
  unfold horarioCmds at hc
  by_cases hday : now.weekday ∈ h.dias_semana
  · rw [if_pos hday] at hc
    rcases List.mem_append.mp hc with hm | hm
    · by_cases hini : now.minutes = h.hora_inicio
      · rw [if_pos hini] at hm
        simp only [List.mem_singleton] at hm
        subst hm
        exact ⟨hday, Or.inl hini, rfl⟩
      · rw [if_neg hini] at hm
        exact absurd hm (by simp)
    · by_cases hfin : now.minutes = h.hora_fin
      · rw [if_pos hfin] at hm
        simp only [List.mem_singleton] at hm
        subst hm
        exact ⟨hday, Or.inr hfin, rfl⟩
      · rw [if_neg hfin] at hm
        exact absurd hm (by simp)
  · rw [if_neg hday] at hc
    exact absurd hc (by simp)

theorem tick_count_general (hs : List Horario) (rs : List Registro) (now : Ahora)
    (hnds : (rs.map (·.serial)).Nodup) (hndt : (rs.map (·.topic)).Nodup)
    (r : Registro) (hr : r ∈ rs) (c : Command) (cond : Horario → Bool)
    (hcount : ∀ t2 h, (horarioCmds (t2 ++ "/in") h now).count c
        = if cond h ∧ t2 = r.topic then 1 else 0) :
    (ejecutarHorarios hs rs now).count c
      = ((hs.filter (·.activo)).filter
          (fun h => h.serial == r.serial && cond h)).length := by
  rw [(ejecutarHorarios_perm hs rs now hnds).count_eq, count_flatMap]
  unfold joinActivos
  rw [sum_map_flatMap]
  have hmm : ∀ h ∈ hs.filter (·.activo),
      (((rs.filter (fun r2 => r2.serial == h.serial)).map
          (fun r2 => (h, r2.topic))).map
        (fun hr2 => (horarioCmds (hr2.2 ++ "/in") hr2.1 now).count c)).sum
      = ((rs.filter (fun r2 => r2.serial == h.serial)).map
          (fun r2 => (horarioCmds (r2.topic ++ "/in") h now).count c)).sum := by
    intro h _
    rw [List.map_map]
    rfl
  rw [List.map_congr_left hmm]
  exact sum_count_eval rs (hs.filter (·.activo)) r hndt hr cond _
    (fun h r2 _ => hcount r2.topic h)

theorem tick_count_encender (hs : List Horario) (rs : List Registro) (now : Ahora)
    (hnds : (rs.map (·.serial)).Nodup) (hndt : (rs.map (·.topic)).Nodup)
    (r : Registro) (hr : r ∈ rs) :
    (ejecutarHorarios hs rs now).count (encenderCmd (r.topic ++ "/in"))
      = ((hs.filter (·.activo)).filter
          (fun h => h.serial == r.serial && matchInicio h now)).length := by
  apply tick_count_general hs rs now hnds hndt r hr
  intro t2 h
  rw [count_encender_horarioCmds]
  exact if_congr (and_congr_right
    (fun _ => string_append_inj t2 r.topic "/in")) rfl rfl

theorem tick_count_apagar (hs : List Horario) (rs : List Registro) (now : Ahora)
    (hnds : (rs.map (·.serial)).Nodup) (hndt : (rs.map (·.topic)).Nodup)
    (r : Registro) (hr : r ∈ rs) :
    (ejecutarHorarios hs rs now).count (apagarCmd (r.topic ++ "/in"))
      = ((hs.filter (·.activo)).filter
          (fun h => h.serial == r.serial && matchFin h now)).length := by
  apply tick_count_general hs rs now hnds hndt r hr
  intro t2 h
  rw [count_apagar_horarioCmds]
  exact if_congr (and_congr_right
    (fun _ => string_append_inj t2 r.topic "/in")) rfl rfl

theorem tick_no_command (hs : List Horario) (rs : List Registro) (now : Ahora)
    (hnds : (rs.map (·.serial)).Nodup) (hndt : (rs.map (·.topic)).Nodup)
    (r : Registro) (hr : r ∈ rs)
    (hempty : (hs.filter (·.activo)).filter
        (fun h => h.serial == r.serial && (matchInicio h now || matchFin h now))
        = []) :
    ∀ c ∈ ejecutarHorarios hs rs now, c.topic ≠ r.topic ++ "/in" := by
  intro c hc hcontra
  have hmem := ((ejecutarHorarios_perm hs rs now hnds).mem_iff).mp hc
  obtain ⟨hrow, hrowmem, hcmem⟩ := List.mem_flatMap.mp hmem
  obtain ⟨hday, hbound, htop⟩ := mem_horarioCmds hcmem
  obtain ⟨hh, hact, r2, hr2, hser2, htop2⟩ := mem_joinActivos.mp hrowmem
  have htopEq : hrow.2 = r.topic := by
    apply string_append_cancel "/in"
    rw [← htop]
    exact hcontra
  have hr2r : r2 = r := by
    apply List.inj_on_of_nodup_map hndt hr2 hr
    show r2.topic = r.topic
    rw [← htop2, htopEq]
  have hserEq : hrow.1.serial = r.serial := by
    rw [← hser2, hr2r]
  have hmemf : hrow.1 ∈ (hs.filter (·.activo)).filter
      (fun h => h.serial == r.serial && (matchInicio h now || matchFin h now)) := by
    apply List.mem_filter.mpr
    refine ⟨List.mem_filter.mpr ⟨hh, by simp [hact]⟩, ?_⟩
    simp only [hserEq, matchInicio, matchFin, Bool.and_eq_true, beq_iff_eq,
      decide_eq_true_eq, Bool.or_eq_true]
    refine ⟨trivial, ?_⟩
    rcases hbound with hb | hb
    · exact Or.inl ⟨hday, by simp [hb]⟩
    · exact Or.inr ⟨hday, by simp [hb]⟩
  rw [hempty] at hmemf
  exact absurd hmemf (by simp)

/-- C4: at a tick, for every registro r (serials and topics being unique
keys of the registro table), the number of turn-on commands published to
r.topic ++ "/in" with payload bomba = encendida, valvula = cerrada equals
the number of active schedules for r.serial whose day set contains the
current UTC weekday and whose hora_inicio equals the current minute
(hence exactly one when exactly one schedule matches); likewise for
turn-off commands with payload bomba = apagada, valvula = abierta at
hora_fin; and when no active schedule for r matches either boundary, no
command at all is published to r's topic. -/
theorem claim4_tick_commands (hs : List Horario) (rs : List Registro)
    (now : Ahora)
    (hnds : (rs.map (·.serial)).Nodup) (hndt : (rs.map (·.topic)).Nodup)
    (r : Registro) (hr : r ∈ rs) :
    ((ejecutarHorarios hs rs now).count (encenderCmd (r.topic ++ "/in"))
      = ((hs.filter (·.activo)).filter
          (fun h => h.serial == r.serial && matchInicio h now)).length)
    ∧ ((ejecutarHorarios hs rs now).count (apagarCmd (r.topic ++ "/in"))
      = ((hs.filter (·.activo)).filter
          (fun h => h.serial == r.serial && matchFin h now)).length)
    ∧ ((hs.filter (·.activo)).filter
          (fun h => h.serial == r.serial && (matchInicio h now || matchFin h now))
            = [] →
        ∀ c ∈ ejecutarHorarios hs rs now, c.topic ≠ r.topic ++ "/in") :=
  ⟨tick_count_encender hs rs now hnds hndt r hr,
    tick_count_apagar hs rs now hnds hndt r hr,
    fun hempty => tick_no_command hs rs now hnds hndt r hr hempty⟩

/-- Concrete store for the C4 witness: one registration with a Monday
13:00-13:30 active schedule and one unrelated registration. -/
def c4Hs : List Horario :=
  [{ horario_id := 1, serial := "S1", dias_semana := {1},
     hora_inicio := 780, hora_fin := 810, activo := true }]

def c4Rs : List Registro :=
  [{ rgt_id := 1, usr_id := 1, serial := "S1", topic := "mk-208/VB/S1",
     ultima_conexion := 0, estatus := "A" },
   { rgt_id := 2, usr_id := 1, serial := "S2", topic := "mk-208/VB/S2",
     ultima_conexion := 0, estatus := "A" }]

def c4R1 : Registro :=
  { rgt_id := 1, usr_id := 1, serial := "S1", topic := "mk-208/VB/S1",
    ultima_conexion := 0, estatus := "A" }

/-- C4, witness at the end-to-end scenario of the spec: Monday 13:00
(minute 780) with a Monday 13:00-13:30 schedule. -/
theorem claim4_tick_commands_witness :
    ((c4Rs.map (·.serial)).Nodup ∧ (c4Rs.map (·.topic)).Nodup ∧ c4R1 ∈ c4Rs)
    ∧ (((ejecutarHorarios c4Hs c4Rs ⟨1, 780⟩).count
          (encenderCmd (c4R1.topic ++ "/in"))
        = ((c4Hs.filter (·.activo)).filter
            (fun h => h.serial == c4R1.serial && matchInicio h ⟨1, 780⟩)).length)
      ∧ ((ejecutarHorarios c4Hs c4Rs ⟨1, 780⟩).count
          (apagarCmd (c4R1.topic ++ "/in"))
        = ((c4Hs.filter (·.activo)).filter
            (fun h => h.serial == c4R1.serial && matchFin h ⟨1, 780⟩)).length)
      ∧ ((c4Hs.filter (·.activo)).filter
            (fun h => h.serial == c4R1.serial &&
              (matchInicio h ⟨1, 780⟩ || matchFin h ⟨1, 780⟩)) = [] →
          ∀ c ∈ ejecutarHorarios c4Hs c4Rs ⟨1, 780⟩,
            c.topic ≠ c4R1.topic ++ "/in")) :=
  ⟨⟨by decide, by decide, by decide⟩,
    claim4_tick_commands c4Hs c4Rs ⟨1, 780⟩ (by decide) (by decide) c4R1 (by decide)⟩

/-- Concrete store for C7: a single active zero-duration window
12:00-12:00 on Wednesday. -/
def c7Hs : List Horario :=
  [{ horario_id := 1, serial := "Z", dias_semana := {3},
     hora_inicio := 720, hora_fin := 720, activo := true }]

def c7Rs : List Registro :=
  [{ rgt_id := 1, usr_id := 1, serial := "Z", topic := "mk-208/VB/Z",
     ultima_conexion := 0, estatus := "A" }]

/-- C7, counterexample: a tick at the exact minute of a zero-duration
window on a matching day does NOT emit zero commands; the code emits the
turn-on command followed by the turn-off command. -/
theorem claim7_counterexample :
    ejecutarHorarios c7Hs c7Rs ⟨3, 720⟩
      = [encenderCmd "mk-208/VB/Z/in", apagarCmd "mk-208/VB/Z/in"]
    ∧ ejecutarHorarios c7Hs c7Rs ⟨3, 720⟩ ≠ [] := by
  constructor
  · decide
  · decide

/-- C7 (amended): a schedule whose hora_inicio equals its hora_fin is not
"never fires": at that exact minute on a matching day the tick emits both
the turn-on and the turn-off command for the registration. -/
theorem claim7_zero_duration (hs : List Horario) (rs : List Registro)
    (now : Ahora)
    (hnds : (rs.map (·.serial)).Nodup) (hndt : (rs.map (·.topic)).Nodup)
    (h : Horario) (hh : h ∈ hs) (hact : h.activo = true)
    (hday : now.weekday ∈ h.dias_semana)
    (hini : h.hora_inicio = now.minutes) (hfin : h.hora_fin = now.minutes)
    (r : Registro) (hr : r ∈ rs) (hser : r.serial = h.serial) :
    0 < (ejecutarHorarios hs rs now).count (encenderCmd (r.topic ++ "/in"))
    ∧ 0 < (ejecutarHorarios hs rs now).count (apagarCmd (r.topic ++ "/in")) := by
  constructor
  · rw [tick_count_encender hs rs now hnds hndt r hr]
    have hmem : h ∈ (hs.filter (·.activo)).filter
        (fun h2 => h2.serial == r.serial && matchInicio h2 now) := by
      apply List.mem_filter.mpr
      refine ⟨List.mem_filter.mpr ⟨hh, by simp [hact]⟩, ?_⟩
      simp [matchInicio, hser, hday, hini]
    exact List.length_pos.mpr (List.ne_nil_of_mem hmem)
  · rw [tick_count_apagar hs rs now hnds hndt r hr]
    have hmem : h ∈ (hs.filter (·.activo)).filter
        (fun h2 => h2.serial == r.serial && matchFin h2 now) := by
      apply List.mem_filter.mpr
      refine ⟨List.mem_filter.mpr ⟨hh, by simp [hact]⟩, ?_⟩
      simp [matchFin, hser, hday, hfin]
    exact List.length_pos.mpr (List.ne_nil_of_mem hmem)

/-- C7, witness for the amended zero-duration theorem on the concrete
store. -/
theorem claim7_zero_duration_witness :
    ((c7Rs.map (·.serial)).Nodup ∧ (c7Rs.map (·.topic)).Nodup)
    ∧ (0 < (ejecutarHorarios c7Hs c7Rs ⟨3, 720⟩).count
          (encenderCmd
            (({ rgt_id := 1, usr_id := 1, serial := "Z", topic := "mk-208/VB/Z",
                ultima_conexion := 0, estatus := "A" } : Registro).topic ++ "/in"))
      ∧ 0 < (ejecutarHorarios c7Hs c7Rs ⟨3, 720⟩).count
          (apagarCmd
            (({ rgt_id := 1, usr_id := 1, serial := "Z", topic := "mk-208/VB/Z",
                ultima_conexion := 0, estatus := "A" } : Registro).topic ++ "/in"))) :=
  ⟨⟨by decide, by decide⟩,
    claim7_zero_duration c7Hs c7Rs ⟨3, 720⟩ (by decide) (by decide)
      { horario_id := 1, serial := "Z", dias_semana := {3},
        hora_inicio := 720, hora_fin := 720, activo := true }
      (by decide) (by decide) (by decide) (by decide) (by decide)
      { rgt_id := 1, usr_id := 1, serial := "Z", topic := "mk-208/VB/Z",
        ultima_conexion := 0, estatus := "A" }
      (by decide) (by decide)⟩

/-! ## The telemetry ingestor (procesarMensajesMqtt) and the store -/

/-- A row of the sesion table, restricted to the fields the ingestor
reads or writes. -/
structure Sesion where
  usuario_id : Nat
  frb_token : Option String
deriving DecidableEq, Repr

/-- A row of the parametros table. -/
structure Parametro where
  prt_id : Nat
  tipo : String
deriving DecidableEq, Repr

/-- A row of the registro_valor table. -/
structure RegistroValor where
  vlr_id : Nat
  rgt_id : Nat
  prt_id : Nat
  valor : String
deriving DecidableEq, Repr

/-- The persistent store state touched by the embedded operations.
Timestamps are minutes since an arbitrary epoch. -/
structure DB where
  registros : List Registro
  sesiones : List Sesion
  parametros : List Parametro
  valores : List RegistroValor
deriving DecidableEq, Repr

/-- A parsed flat JSON payload: key-value pairs in textual order. -/
abbrev Obj := List (String × String)

/-- JavaScript property lookup on the parsed object; with duplicate keys
the last occurrence wins, as in JSON.parse. -/
def objGet (obj : Obj) (k : String) : Option String :=
  obj.foldl (fun acc kv => if kv.1 == k then some kv.2 else acc) none

/-- The device lookup of the ingestor (src/index.js line 940): registro
rows with the given serial joined with sesion rows of the owner carrying a
non-null frb_token, yielding (rgt_id, frb_token) pairs. -/
def deviceRows (db : DB) (serie : String) : List (Nat × String) :=
  (db.registros.filter (fun r => r.serial == serie)).flatMap (fun r =>
    (db.sesiones.filter
        (fun s => s.usuario_id == r.usr_id && s.frb_token.isSome)).map
      (fun s => (r.rgt_id, s.frb_token.getD "")))

/-- The parameter listing of the ingestor (src/index.js lines 966-969):
registro_valor joined with parametros for the registration, yielding
(prt_id, tipo) pairs; this read goes through the pool, outside the
transaction. -/
def paramRows (db : DB) (rg : Nat) : List (Nat × String) :=
  (db.valores.filter (fun rv => rv.rgt_id == rg)).flatMap (fun rv =>
    (db.parametros.filter (fun p => p.prt_id == rv.prt_id)).map
      (fun p => (p.prt_id, p.tipo)))

/-- The UPDATE registro_valor SET valor statement (src/index.js 974-976). -/
def updValor (db : DB) (rg pr : Nat) (v : String) : DB :=
  { db with valores := db.valores.map (fun rv =>
      if rv.rgt_id = rg ∧ rv.prt_id = pr then { rv with valor := v } else rv) }

/-- The per-parameter update loop (src/index.js lines 971-977) on the
transaction draft: skip payload-unknown parameters, update the rest.
errs injects a store error at the corresponding executed UPDATE; an error
raises and reaches the catch/ROLLBACK, modelled as none. -/
def runUpdates : DB → Nat → List (Nat × String) → Obj → List Bool → Option DB
  | draft, _, [], _, _ => some draft
  | draft, rg, (pr, tipo) :: rest, obj, errs =>
    match objGet obj tipo with
    | none => runUpdates draft rg rest obj errs
    | some v =>
      if errs.headD false then none
      else runUpdates (updValor draft rg pr v) rg rest obj errs.tail

/-- The error-free update loop as a fold, for reasoning. -/
def applyRow (rg : Nat) (obj : Obj) (rv : RegistroValor) (pr : Nat × String) :
    RegistroValor :=
  match objGet obj pr.2 with
  | none => rv
  | some v =>
    if rv.rgt_id = rg ∧ rv.prt_id = pr.1 then { rv with valor := v } else rv

def applyUpdates (draft : DB) (rg : Nat) (rows : List (Nat × String))
    (obj : Obj) : DB :=
  rows.foldl (fun d pr =>
    match objGet obj pr.2 with
    | none => d
    | some v => updValor d rg pr.1 v) draft

/-- The post-commit notification dispatch (src/index.js lines 981-1005):
one notification per device row; when a send fails with an invalid-token
error (oracle bad) the frb_token is cleared wherever it appears in
sesion. -/
def limpiarTokens (db : DB) (bad : String → Bool) (sent : List String) : DB :=
  { db with sesiones := db.sesiones.map (fun s =>
      match s.frb_token with
      | some t => if bad t ∧ t ∈ sent then { s with frb_token := none } else s
      | none => s) }

/-- JavaScript topic.split with separator slash, as a structural
recursion over the characters (empty segments preserved). -/
def splitAux : List Char → List Char → List String
  | [], acc => [String.mk acc.reverse]
  | c :: rest, acc =>
    if c = '/' then String.mk acc.reverse :: splitAux rest []
    else splitAux rest (c :: acc)

def splitTopic (s : String) : List String := splitAux s.data []

/-- The MQTT message handler of procesarMensajesMqtt (src/index.js lines
905-1015) as a state transformer on the committed store.  The topic is
split on "/" and part 2 is the serial (an absent part matches no
registro); msg is the JSON.parse result, none when the payload is
malformed and JSON.parse throws; errs injects store errors into the
per-parameter updates; commitFail injects a store error at COMMIT; bad
tells which notification tokens the push service rejects.  Every failure
path reaches the catch handler, which issues ROLLBACK, leaving the
committed store unchanged.  The registration liveness update
(updateDevice, lines 954-961) is defined in the source but its execution
is commented out, so no registro row is ever written. -/
def procesar (db : DB) (topic : String) (msg : Option Obj) (errs : List Bool)
    (commitFail : Bool) (bad : String → Bool) : DB :=
  match (splitTopic topic)[2]? with
  | none => db
  | some serie =>
    match deviceRows db serie with
    | [] => db
    | (rg, _) :: _ =>
      match msg with
      | none => db
      | some obj =>
        match runUpdates db rg (paramRows db rg) obj errs with
        | none => db
        | some draft =>
          if commitFail then db
          else limpiarTokens draft bad ((deviceRows db serie).map (·.2))

/-- marcarOfflineSiNoReportan (src/index.js lines 1026-1048): set estatus
to the literal string O for rows whose estatus is the literal string
online and whose ultima_conexion is more than 5 minutes old. -/
def marcarOffline (db : DB) (now : Nat) : DB :=
  { db with registros := db.registros.map (fun r =>
      if r.estatus = "online" ∧ r.ultima_conexion + 5 < now
      then { r with estatus := "O" } else r) }

/-! Helper lemmas about the ingestor. -/

theorem runUpdates_cons_eq (draft : DB) (rg pr : Nat) (tipo : String)
    (rest : List (Nat × String)) (obj : Obj) (errs : List Bool) :
    runUpdates draft rg ((pr, tipo) :: rest) obj errs
      = match objGet obj tipo with
        | none => runUpdates draft rg rest obj errs
        | some v =>
          if errs.headD false then none
          else runUpdates (updValor draft rg pr v) rg rest obj errs.tail := rfl

theorem applyUpdates_cons (draft : DB) (rg pr : Nat) (tipo : String)
    (rest : List (Nat × String)) (obj : Obj) :
    applyUpdates draft rg ((pr, tipo) :: rest) obj
      = applyUpdates
          (match objGet obj tipo with
            | none => draft
            | some v => updValor draft rg pr v) rg rest obj := rfl

theorem runUpdates_nil_errs (rows : List (Nat × String)) (draft : DB) (rg : Nat)
    (obj : Obj) :
    runUpdates draft rg rows obj [] = some (applyUpdates draft rg rows obj) := by
  induction rows generalizing draft with
  | nil => rfl
  | cons pr rest ih =>
    rcases pr with ⟨pr, tipo⟩
    rw [runUpdates_cons_eq, applyUpdates_cons]
    cases hobj : objGet obj tipo with
    | none =>
      simp only [hobj]
      exact ih draft
    | some v =>
      simp only [hobj, List.headD_nil, List.tail_nil, Bool.false_eq_true,
        if_false]
      exact ih _

theorem runUpdates_none_or (rows : List (Nat × String)) (draft : DB) (rg : Nat)
    (obj : Obj) (errs : List Bool) :
    runUpdates draft rg rows obj errs = none
    ∨ runUpdates draft rg rows obj errs = runUpdates draft rg rows obj [] := by
  induction rows generalizing draft errs with
  | nil => exact Or.inr rfl
  | cons pr rest ih =>
    rcases pr with ⟨pr, tipo⟩
    rw [runUpdates_cons_eq, runUpdates_cons_eq]
    cases hobj : objGet obj tipo with
    | none =>
      simp only [hobj]
      exact ih draft errs
    | some v =>
      simp only [hobj, List.headD_nil, List.tail_nil, Bool.false_eq_true,
        if_false]
      by_cases hb : errs.headD false
      · rw [if_pos hb]
        exact Or.inl rfl
      · rw [if_neg hb]
        exact ih _ errs.tail

theorem runUpdates_frame (rows : List (Nat × String)) (draft : DB) (rg : Nat)
    (obj : Obj) (errs : List Bool) (d : DB)
    (h : runUpdates draft rg rows obj errs = some d) :
    d.registros = draft.registros ∧ d.sesiones = draft.sesiones
    ∧ d.parametros = draft.parametros := by
  induction rows generalizing draft errs with
  | nil =>
    unfold runUpdates at h
    cases h
    exact ⟨rfl, rfl, rfl⟩
  | cons pr rest ih =>
    rcases pr with ⟨pr, tipo⟩
    rw [runUpdates_cons_eq] at h
    cases hobj : objGet obj tipo with
    | none =>
      simp only [hobj] at h
      exact ih draft errs h
    | some v =>
      simp only [hobj] at h
      by_cases hb : errs.headD false
      · rw [if_pos hb] at h
        cases h
      · rw [if_neg hb] at h
        have h4 := ih (updValor draft rg pr v) errs.tail h
        exact ⟨h4.1, h4.2.1, h4.2.2⟩

theorem limpiarTokens_frame (db : DB) (bad : String → Bool) (sent : List String) :
    (limpiarTokens db bad sent).registros = db.registros
    ∧ (limpiarTokens db bad sent).valores = db.valores
    ∧ (limpiarTokens db bad sent).parametros = db.parametros := ⟨rfl, rfl, rfl⟩

/-- The handler never writes the registro table: the updateDevice
statement of src/index.js lines 954-961 is commented out. -/
theorem procesar_registros_eq (db : DB) (topic : String) (msg : Option Obj)
    (errs : List Bool) (commitFail : Bool) (bad : String → Bool) :
    (procesar db topic msg errs commitFail bad).registros = db.registros := by
  unfold procesar
  cases (splitTopic topic)[2]? with
  | none => rfl
  | some serie =>
    dsimp only
    cases hdev : deviceRows db serie with
    | nil => rfl
    | cons hd tl =>
      rcases hd with ⟨rg, tk⟩
      dsimp only
      cases msg with
      | none => rfl
      | some obj =>
        dsimp only
        cases hrun : runUpdates db rg (paramRows db rg) obj errs with
        | none => rfl
        | some draft =>
          dsimp only
          by_cases hc : commitFail
          · simp [hc]
          · simp only [hc, if_false, Bool.false_eq_true]
            rw [(limpiarTokens_frame draft bad _).1]
            exact (runUpdates_frame _ db rg obj errs draft hrun).1

/-- C5: per-message atomicity.  Whatever store errors occur during the
per-parameter updates (errs) or at COMMIT (commitFail), the parameter
values after the handler are either exactly the originals (the catch
handler rolled the transaction back) or exactly those of an error-free
run (everything committed together); no partial write is observable. -/
theorem claim5_atomic (db : DB) (topic : String) (msg : Option Obj)
    (errs : List Bool) (commitFail : Bool) (bad : String → Bool) :
    (procesar db topic msg errs commitFail bad).valores = db.valores
    ∨ (procesar db topic msg errs commitFail bad).valores
        = (procesar db topic msg [] false bad).valores := by
  unfold procesar
  cases (splitTopic topic)[2]? with
  | none => exact Or.inl rfl
  | some serie =>
    dsimp only
    cases hdev : deviceRows db serie with
    | nil => exact Or.inl rfl
    | cons hd tl =>
      rcases hd with ⟨rg, tk⟩
      dsimp only
      cases msg with
      | none => exact Or.inl rfl
      | some obj =>
        dsimp only
        rcases runUpdates_none_or (paramRows db rg) db rg obj errs with hN | hE
        · rw [hN]
          exact Or.inl rfl
        · rw [hE, runUpdates_nil_errs]
          dsimp only
          by_cases hc : commitFail
          · rw [if_pos hc]
            exact Or.inl rfl
          · rw [if_neg hc]
            exact Or.inr rfl

/-- C6, code evaluation: the claim fails on the code.  The updateDevice
statement that would set ultima_conexion = now() and estatus on the
registration (src/index.js lines 954-961) is defined but its execution is
commented out, so the registro table is unchanged by every handler run,
successful ingestion included; no lastSeenAt or status write ever joins
the transaction. -/
theorem claim6_no_liveness_write (db : DB) (topic : String) (msg : Option Obj)
    (errs : List Bool) (commitFail : Bool) (bad : String → Bool) :
    (procesar db topic msg errs commitFail bad).registros = db.registros :=
  procesar_registros_eq db topic msg errs commitFail bad

/-- C8, code evaluation: the claim fails on the code.  The sweep flips
exactly the rows whose stored estatus is the literal string online, but
the ingestor never writes that value (its status update is commented out;
in the concatenated earlier revision it writes the literal A), so a
registration that went through ingestion keeps its estatus forever, no
matter how stale ultima_conexion is: ingest followed by the sweep leaves
every row whose estatus is not the literal online untouched. -/
theorem claim8_sweep_misses_ingested (db : DB) (topic : String)
    (msg : Option Obj) (errs : List Bool) (commitFail : Bool)
    (bad : String → Bool) (now : Nat) (r : Registro)
    (hr : r ∈ db.registros) (hst : r.estatus ≠ "online") :
    r ∈ (marcarOffline (procesar db topic msg errs commitFail bad) now).registros := by
  show r ∈ (procesar db topic msg errs commitFail bad).registros.map _
  rw [procesar_registros_eq db topic msg errs commitFail bad]
  apply List.mem_map.mpr
  refine ⟨r, hr, ?_⟩
  rw [if_neg]
  intro hcontra
  exact hst hcontra.1

/-- Concrete store for the C8 witness: one registration whose estatus is
the literal A (the value the executing revision of the ingestor writes)
and whose ultima_conexion is 100 minutes stale. -/
def c8R : Registro := ⟨1, 7, "AB", "mk-208/VB/AB", 0, "A"⟩

def c8Db : DB :=
  ⟨[c8R], [⟨7, some "tok"⟩], [⟨1, "ph"⟩], [⟨1, 1, 1, "7.0"⟩]⟩

/-- C8, witness: the stale registration with estatus A survives an ingest
run followed by the sweep at minute 100. -/
theorem claim8_sweep_misses_ingested_witness :
    (c8R ∈ c8Db.registros ∧ c8R.estatus ≠ "online")
    ∧ c8R ∈
      (marcarOffline
        (procesar c8Db "mk-208/VB/AB" (some [("ph", "7.4")]) [] false
          (fun _ => false)) 100).registros :=
  ⟨⟨by decide, by decide⟩,
    claim8_sweep_misses_ingested c8Db "mk-208/VB/AB" (some [("ph", "7.4")])
      [] false (fun _ => false) 100 c8R (by decide) (by decide)⟩

/-- C9: a telemetry message for a registered device whose owner has no
session with a non-null frb_token takes the same rollback path as an
unknown serial: the device lookup joins registro with sesion and keeps
only rows with frb_token IS NOT NULL, so the handler rolls back and the
whole store (parameter values, ultima_conexion, estatus) is unchanged. -/
theorem claim9_requires_token (db : DB) (topic : String) (msg : Option Obj)
    (errs : List Bool) (commitFail : Bool) (bad : String → Bool) (serie : String)
    (hserie : (splitTopic topic)[2]? = some serie)
    (hnotok : ∀ r ∈ db.registros, r.serial = serie →
        ∀ s ∈ db.sesiones, s.usuario_id = r.usr_id → s.frb_token = none) :
    procesar db topic msg errs commitFail bad = db := by
  have hdev : deviceRows db serie = [] := by
    rw [List.eq_nil_iff_forall_not_mem]
    intro x hx
    unfold deviceRows at hx
    obtain ⟨r2, hr2, hx2⟩ := List.mem_flatMap.mp hx
    obtain ⟨s2, hs2, hx3⟩ := List.mem_map.mp hx2
    have hr2f := List.mem_filter.mp hr2
    have hs2f := List.mem_filter.mp hs2
    have hser2 : r2.serial = serie := by simpa using hr2f.2
    have hcond := hs2f.2
    simp only [Bool.and_eq_true, beq_iff_eq] at hcond
    have hnone := hnotok r2 hr2f.1 hser2 s2 hs2f.1 hcond.1
    rw [hnone] at hcond
    exact absurd hcond.2 (by simp)
  unfold procesar
  rw [hserie]
  dsimp only
  rw [hdev]

/-- Concrete store for the C9 witness: a registered device whose owner has
one session with frb_token NULL. -/
def c9Db : DB :=
  ⟨[⟨1, 7, "AB", "mk-208/VB/AB", 0, "A"⟩], [⟨7, none⟩], [⟨1, "ph"⟩],
    [⟨1, 1, 1, "7.0"⟩]⟩

/-- C9, witness: the message for the registered device AB is dropped with
no store change because the owner has no session with a token. -/
theorem claim9_requires_token_witness :
    ((splitTopic "mk-208/VB/AB")[2]? = some "AB"
      ∧ (∀ r ∈ c9Db.registros, r.serial = "AB" →
          ∀ s ∈ c9Db.sesiones, s.usuario_id = r.usr_id → s.frb_token = none))
    ∧ procesar c9Db "mk-208/VB/AB" (some [("ph", "7.4")]) [] false
        (fun _ => false) = c9Db :=
  ⟨⟨by decide, by decide⟩,
    claim9_requires_token c9Db "mk-208/VB/AB" (some [("ph", "7.4")]) [] false
      (fun _ => false) "AB" (by decide) (by decide)⟩

/-! Pointwise characterization of the error-free update loop. -/

theorem applyUpdates_valores (rows : List (Nat × String)) (draft : DB)
    (rg : Nat) (obj : Obj) :
    (applyUpdates draft rg rows obj).valores
      = draft.valores.map (fun rv => rows.foldl (applyRow rg obj) rv) := by
  induction rows generalizing draft with
  | nil =>
    simp only [applyUpdates, List.foldl_nil]
    exact (List.map_id _).symm
  | cons pr rest ih =>
    rcases pr with ⟨pr, tipo⟩
    rw [applyUpdates_cons]
    cases hobj : objGet obj tipo with
    | none =>
      simp only [hobj]
      rw [ih draft]
      apply List.map_congr_left
      intro rv _
      rw [List.foldl_cons]
      congr 1
      unfold applyRow
      rw [hobj]
    | some v =>
      simp only [hobj]
      rw [ih (updValor draft rg pr v)]
      unfold updValor
      rw [List.map_map]
      apply List.map_congr_left
      intro rv _
      rw [List.foldl_cons]
      simp only [Function.comp]
      congr 1
      unfold applyRow
      rw [hobj]

theorem applyRow_ids (rg : Nat) (obj : Obj) (rv : RegistroValor)
    (pr : Nat × String) :
    (applyRow rg obj rv pr).vlr_id = rv.vlr_id
    ∧ (applyRow rg obj rv pr).rgt_id = rv.rgt_id
    ∧ (applyRow rg obj rv pr).prt_id = rv.prt_id := by
  unfold applyRow
  cases objGet obj pr.2 with
  | none => exact ⟨rfl, rfl, rfl⟩
  | some v =>
    dsimp only
    by_cases hc : rv.rgt_id = rg ∧ rv.prt_id = pr.1
    · rw [if_pos hc]
      exact ⟨rfl, rfl, rfl⟩
    · rw [if_neg hc]
      exact ⟨rfl, rfl, rfl⟩

theorem applyRow_untouched_prt (rg : Nat) (obj : Obj) (rv : RegistroValor)
    (pr : Nat × String) (h : rv.prt_id ≠ pr.1) :
    applyRow rg obj rv pr = rv := by
  unfold applyRow
  cases objGet obj pr.2 with
  | none => rfl
  | some v =>
    dsimp only
    rw [if_neg]
    intro hc
    exact h hc.2

theorem applyRow_untouched_rgt (rg : Nat) (obj : Obj) (rv : RegistroValor)
    (pr : Nat × String) (h : rv.rgt_id ≠ rg) :
    applyRow rg obj rv pr = rv := by
  unfold applyRow
  cases objGet obj pr.2 with
  | none => rfl
  | some v =>
    dsimp only
    rw [if_neg]
    intro hc
    exact h hc.1

theorem foldl_applyRow_fixed (rows : List (Nat × String)) (rg : Nat) (obj : Obj)
    (rv : RegistroValor) (h : ∀ pr ∈ rows, applyRow rg obj rv pr = rv) :
    rows.foldl (applyRow rg obj) rv = rv := by
  induction rows with
  | nil => rfl
  | cons pr rest ih =>
    rw [List.foldl_cons, h pr (by simp)]
    exact ih (fun pr2 hpr2 => h pr2 (by simp [hpr2]))

theorem foldl_applyRow_sets (rows : List (Nat × String)) (rg : Nat) (obj : Obj)
    (pr0 : Nat) (tipo0 v : String) (rv : RegistroValor)
    (hmem : (pr0, tipo0) ∈ rows)
    (huniq : ∀ t2, (pr0, t2) ∈ rows → t2 = tipo0)
    (hv : objGet obj tipo0 = some v)
    (hrgt : rv.rgt_id = rg) (hprt : rv.prt_id = pr0) :
    rows.foldl (applyRow rg obj) rv = { rv with valor := v } := by
  induction rows generalizing rv with
  | nil => exact absurd hmem (by simp)
  | cons pr rest ih =>
    rcases pr with ⟨p1, p2⟩
    rw [List.foldl_cons]
    by_cases hp : p1 = pr0
    · subst hp
      have hp2 : p2 = tipo0 := huniq p2 (by simp)
      subst hp2
      have hstep : applyRow rg obj rv (p1, p2) = { rv with valor := v } := by
        unfold applyRow
        simp only [hv]
        rw [if_pos ⟨hrgt, hprt⟩]
      rw [hstep]
      by_cases hrest : (p1, p2) ∈ rest
      · exact ih { rv with valor := v } hrest
          (fun t2 ht2 => huniq t2 (by simp [ht2])) hrgt hprt
      · apply foldl_applyRow_fixed
        intro pr2 hpr2
        rcases pr2 with ⟨q1, q2⟩
        by_cases hq : q1 = p1
        · subst hq
          have hq2 : q2 = p2 := huniq q2 (by simp [hpr2])
          subst hq2
          exact absurd hpr2 hrest
        · apply applyRow_untouched_prt
          dsimp only
          rw [hprt]
          exact fun hEq => hq hEq.symm
    · have hstep : applyRow rg obj rv (p1, p2) = rv := by
        apply applyRow_untouched_prt
        dsimp only
        rw [hprt]
        exact fun hEq => hp hEq.symm
      rw [hstep]
      have hmem2 : (pr0, tipo0) ∈ rest := by
        rcases List.mem_cons.mp hmem with hEq | hIn
        · exact absurd (congrArg Prod.fst hEq).symm hp
        · exact hIn
      exact ih rv hmem2 (fun t2 ht2 => huniq t2 (by simp [ht2])) hrgt hprt

theorem mem_paramRows {db : DB} {rg pr : Nat} {t : String} :
    (pr, t) ∈ paramRows db rg ↔
      (∃ rv ∈ db.valores, rv.rgt_id = rg ∧ rv.prt_id = pr)
      ∧ ∃ p ∈ db.parametros, p.prt_id = pr ∧ p.tipo = t := by
  unfold paramRows
  simp only [List.mem_flatMap, List.mem_map, List.mem_filter, beq_iff_eq,
    Prod.mk.injEq]
  constructor
  · rintro ⟨rv, ⟨hrv, hrg⟩, p, ⟨hp, hprt⟩, hpr, ht⟩
    exact ⟨⟨rv, hrv, hrg, by rw [← hprt]; exact hpr⟩, p, hp, hpr, ht⟩
  · rintro ⟨⟨rv, hrv, hrg, hprt⟩, p, hp, hpr, ht⟩
    exact ⟨rv, ⟨hrv, hrg⟩, p, ⟨hp, by rw [hpr, hprt]⟩, hpr, ht⟩

/-- Reduction of a successful handler run to the error-free update fold. -/
theorem procesar_ok_valores (db : DB) (topic : String) (obj : Obj)
    (bad : String → Bool) (serie : String)
    (hserie : (splitTopic topic)[2]? = some serie)
    (rg : Nat) (tk : String) (tl : List (Nat × String))
    (hdev : deviceRows db serie = (rg, tk) :: tl) :
    (procesar db topic (some obj) [] false bad).valores
      = (applyUpdates db rg (paramRows db rg) obj).valores := by
  unfold procesar
  rw [hserie]
  dsimp only
  rw [hdev]
  dsimp only
  rw [runUpdates_nil_errs]
  rfl

theorem objGet_filter_ne (obj : Obj) (k t : String) (h : t ≠ k) :
    objGet (obj.filter (fun kv => !(kv.1 == k))) t = objGet obj t := by
  unfold objGet
  suffices hgen : ∀ acc : Option String,
      (obj.filter (fun kv => !(kv.1 == k))).foldl
        (fun acc kv => if kv.1 == t then some kv.2 else acc) acc
      = obj.foldl (fun acc kv => if kv.1 == t then some kv.2 else acc) acc from
    hgen none
  induction obj with
  | nil =>
    intro acc
    rfl
  | cons kv rest ih =>
    intro acc
    rw [List.filter_cons]
    by_cases hk : kv.1 = k
    · rw [if_neg (by simp [hk])]
      rw [List.foldl_cons]
      have hstep : (if (kv.1 == t) = true then some kv.2 else acc) = acc := by
        rw [if_neg]
        simp only [beq_iff_eq, hk]
        exact fun hEq => h hEq.symm
      rw [hstep]
      exact ih acc
    · rw [if_pos (by simp [hk])]
      rw [List.foldl_cons, List.foldl_cons]
      exact ih _

theorem applyUpdates_obj_congr (rows : List (Nat × String)) (draft : DB)
    (rg : Nat) (obj obj2 : Obj)
    (h : ∀ pr ∈ rows, objGet obj pr.2 = objGet obj2 pr.2) :
    applyUpdates draft rg rows obj = applyUpdates draft rg rows obj2 := by
  induction rows generalizing draft with
  | nil => rfl
  | cons pr rest ih =>
    rcases pr with ⟨pr, tipo⟩
    rw [applyUpdates_cons, applyUpdates_cons]
    have h0 : objGet obj tipo = objGet obj2 tipo := h (pr, tipo) (by simp)
    rw [h0]
    exact ih _ (fun pr2 hpr2 => h pr2 (by simp [hpr2]))

/-- A successful run ignores payload keys that name no declared
parameter: filtering such a key out of the payload yields the same
result. -/
theorem procesar_unknown_key (db : DB) (topic : String) (obj : Obj)
    (bad : String → Bool) (serie : String)
    (hserie : (splitTopic topic)[2]? = some serie)
    (rg : Nat) (tk : String) (tl : List (Nat × String))
    (hdev : deviceRows db serie = (rg, tk) :: tl)
    (k : String) (hk : ∀ p ∈ db.parametros, p.tipo ≠ k) :
    procesar db topic (some obj) [] false bad
      = procesar db topic (some (obj.filter (fun kv => !(kv.1 == k)))) []
          false bad := by
  unfold procesar
  rw [hserie]
  dsimp only
  rw [hdev]
  dsimp only
  rw [runUpdates_nil_errs, runUpdates_nil_errs]
  dsimp only
  have hupd : applyUpdates db rg (paramRows db rg) obj
      = applyUpdates db rg (paramRows db rg)
          (obj.filter (fun kv => !(kv.1 == k))) := by
    apply applyUpdates_obj_congr
    intro pr hpr
    rcases pr with ⟨pr, t⟩
    obtain ⟨-, p, hp, -, ht⟩ := mem_paramRows.mp hpr
    exact (objGet_filter_ne obj k t (by rw [← ht]; exact hk p hp)).symm
  rw [hupd]

/-- C1: for a telemetry payload that parses to a flat object and whose
topic serial resolves to a registration (with a token-bearing owner
session), after a successful ingestion run every registro_valor row of
the registration whose declared parameter tipo appears in the payload
holds the payload value; rows of other registrations and rows whose tipo
is absent from the payload are untouched; and payload keys naming no
declared parameter have no effect at all (removing them from the payload
gives the identical result), without any error path taken. -/
theorem claim1_ingest_mapping (db : DB) (topic : String) (obj : Obj)
    (bad : String → Bool) (serie : String)
    (hserie : (splitTopic topic)[2]? = some serie)
    (rg : Nat) (tk : String) (tl : List (Nat × String))
    (hdev : deviceRows db serie = (rg, tk) :: tl)
    (hkeys : (db.parametros.map (·.prt_id)).Nodup) :
    (∀ rv ∈ db.valores, rv.rgt_id = rg →
      ∀ p ∈ db.parametros, p.prt_id = rv.prt_id →
      ∀ v, objGet obj p.tipo = some v →
      { rv with valor := v } ∈ (procesar db topic (some obj) [] false bad).valores)
    ∧ (∀ rv ∈ db.valores, rv.rgt_id ≠ rg →
        rv ∈ (procesar db topic (some obj) [] false bad).valores)
    ∧ (∀ rv ∈ db.valores,
        (∀ p ∈ db.parametros, p.prt_id = rv.prt_id → objGet obj p.tipo = none) →
        rv ∈ (procesar db topic (some obj) [] false bad).valores)
    ∧ (∀ k, (∀ p ∈ db.parametros, p.tipo ≠ k) →
        procesar db topic (some obj) [] false bad
          = procesar db topic (some (obj.filter (fun kv => !(kv.1 == k)))) []
              false bad) := by
  have hval := procesar_ok_valores db topic obj bad serie hserie rg tk tl hdev
  refine ⟨?_, ?_, ?_, ?_⟩
  · intro rv hrv hrg p hp hprt v hv
    rw [hval, applyUpdates_valores]
    apply List.mem_map.mpr
    refine ⟨rv, hrv, ?_⟩
    apply foldl_applyRow_sets (paramRows db rg) rg obj rv.prt_id p.tipo v rv
      ?_ ?_ hv hrg rfl
    · apply mem_paramRows.mpr
      exact ⟨⟨rv, hrv, hrg, rfl⟩, p, hp, hprt, rfl⟩
    · intro t2 ht2
      obtain ⟨-, p2, hp2, hpr2, ht2eq⟩ := mem_paramRows.mp ht2
      have hpp : p2 = p :=
        List.inj_on_of_nodup_map hkeys hp2 hp (by rw [hpr2, hprt])
      rw [← ht2eq, hpp]
  · intro rv hrv hrg
    rw [hval, applyUpdates_valores]
    apply List.mem_map.mpr
    refine ⟨rv, hrv, ?_⟩
    exact foldl_applyRow_fixed _ rg obj rv
      (fun pr _ => applyRow_untouched_rgt rg obj rv pr hrg)
  · intro rv hrv hnone
    rw [hval, applyUpdates_valores]
    apply List.mem_map.mpr
    refine ⟨rv, hrv, ?_⟩
    apply foldl_applyRow_fixed
    intro pr hpr
    rcases pr with ⟨q1, q2⟩
    by_cases hq : rv.prt_id = q1
    · obtain ⟨-, p2, hp2, hpr2, ht2⟩ := mem_paramRows.mp hpr
      have hz : objGet obj q2 = none := by
        rw [← ht2]
        exact hnone p2 hp2 (by rw [hpr2, hq])
      unfold applyRow
      simp only [hz]
    · exact applyRow_untouched_prt rg obj rv (q1, q2) hq
  · intro k hk
    exact procesar_unknown_key db topic obj bad serie hserie rg tk tl hdev k hk

/-- Concrete store for the C1 witness: registration AB with declared
parameters ph and bomba; the payload carries ph and an undeclared key. -/
def c1Db : DB :=
  ⟨[⟨1, 7, "AB", "mk-208/VB/AB", 0, "A"⟩], [⟨7, some "tok"⟩],
    [⟨1, "ph"⟩, ⟨2, "bomba"⟩],
    [⟨1, 1, 1, "7.0"⟩, ⟨2, 1, 2, "apagada"⟩]⟩

/-- C1, witness at a concrete ingestion. -/
theorem claim1_ingest_mapping_witness :
    ((splitTopic "mk-208/VB/AB")[2]? = some "AB"
      ∧ deviceRows c1Db "AB" = [(1, "tok")]
      ∧ (c1Db.parametros.map (·.prt_id)).Nodup)
    ∧ ((∀ rv ∈ c1Db.valores, rv.rgt_id = 1 →
        ∀ p ∈ c1Db.parametros, p.prt_id = rv.prt_id →
        ∀ v, objGet [("ph", "6.9"), ("x", "1")] p.tipo = some v →
        { rv with valor := v } ∈
          (procesar c1Db "mk-208/VB/AB" (some [("ph", "6.9"), ("x", "1")]) []
            false (fun _ => false)).valores)
      ∧ (∀ rv ∈ c1Db.valores, rv.rgt_id ≠ 1 →
          rv ∈ (procesar c1Db "mk-208/VB/AB"
            (some [("ph", "6.9"), ("x", "1")]) [] false (fun _ => false)).valores)
      ∧ (∀ rv ∈ c1Db.valores,
          (∀ p ∈ c1Db.parametros, p.prt_id = rv.prt_id →
            objGet [("ph", "6.9"), ("x", "1")] p.tipo = none) →
          rv ∈ (procesar c1Db "mk-208/VB/AB"
            (some [("ph", "6.9"), ("x", "1")]) [] false (fun _ => false)).valores)
      ∧ (∀ k, (∀ p ∈ c1Db.parametros, p.tipo ≠ k) →
          procesar c1Db "mk-208/VB/AB" (some [("ph", "6.9"), ("x", "1")]) []
              false (fun _ => false)
            = procesar c1Db "mk-208/VB/AB"
                (some (([("ph", "6.9"), ("x", "1")] : Obj).filter
                  (fun kv => !(kv.1 == k)))) [] false (fun _ => false))) :=
  ⟨⟨by decide, by decide, by decide⟩,
    claim1_ingest_mapping c1Db "mk-208/VB/AB" [("ph", "6.9"), ("x", "1")]
      (fun _ => false) "AB" (by decide) 1 "tok" [] (by decide) (by decide)⟩

/-! ## The schedule-save endpoint (POST /api/dispositivo/horarios) -/

/-- The request body of POST /api/dispositivo/horarios. -/
structure HorarioReq where
  horario_id : Option Nat
  serial : String
  dias_semana : Finset (Fin 7)
  hora_inicio : Nat
  hora_fin : Nat
  activo : Bool
  tz_offset : Option Int
deriving DecidableEq

/-- The tz_offset normalization prologue of the endpoint (src/index.js
lines 550-581): when tz_offset is present the times and day set are
converted to UTC before any write. -/
def normalizeReq (req : HorarioReq) : HorarioReq :=
  match req.tz_offset with
  | none => req
  | some off =>
    let n := normalizeToUtc req.hora_inicio req.hora_fin req.dias_semana off
    { req with dias_semana := n.days, hora_inicio := n.start, hora_fin := n.stop }

/-- POST /api/dispositivo/horarios (src/index.js lines 540-642) acting on
the horarios table; newId is the horario_id the INSERT RETURNING yields.
With activo = false nothing is written (neither saved nor deleted); with
horario_id null a new row is inserted and then, activo being true, every
schedule of the serial is set active; with a horario_id the matching row
is updated in place. -/
def guardarHorario (store : List Horario) (req : HorarioReq) (newId : Nat) :
    List Horario :=
  let q := normalizeReq req
  if q.activo = false then store
  else
    match q.horario_id with
    | none =>
      let store1 := store ++
        [{ horario_id := newId, serial := q.serial,
           dias_semana := q.dias_semana, hora_inicio := q.hora_inicio,
           hora_fin := q.hora_fin, activo := q.activo }]
      if q.activo = true then
        store1.map (fun h =>
          if h.serial = q.serial then { h with activo := true } else h)
      else store1
    | some hid =>
      store.map (fun h =>
        if h.horario_id = hid ∧ h.serial = q.serial then
          { h with dias_semana := q.dias_semana,
                   hora_inicio := q.hora_inicio, hora_fin := q.hora_fin,
                   activo := q.activo }
        else h)

theorem normalizeReq_serial (req : HorarioReq) :
    (normalizeReq req).serial = req.serial := by
  unfold normalizeReq
  cases req.tz_offset <;> rfl

theorem normalizeReq_horario_id (req : HorarioReq) :
    (normalizeReq req).horario_id = req.horario_id := by
  unfold normalizeReq
  cases req.tz_offset <;> rfl

theorem normalizeReq_activo (req : HorarioReq) :
    (normalizeReq req).activo = req.activo := by
  unfold normalizeReq
  cases req.tz_offset <;> rfl

/-- C10: saving a schedule with activo = false performs no write at all
(the store is returned unchanged, nothing saved and nothing deleted);
saving a NEW schedule (horario_id null) with activo = true appends the
new row and additionally sets activo = true on every already-stored
schedule of the same serial, leaving schedules of other serials
untouched. -/
theorem claim10_save_schedule (store : List Horario) (req : HorarioReq)
    (newId : Nat) :
    (req.activo = false → guardarHorario store req newId = store)
    ∧ (req.activo = true → req.horario_id = none →
        (∀ h ∈ store, h.serial = req.serial →
          { h with activo := true } ∈ guardarHorario store req newId)
        ∧ (∀ h ∈ store, h.serial ≠ req.serial →
            h ∈ guardarHorario store req newId)
        ∧ (guardarHorario store req newId).length = store.length + 1) := by
  constructor
  · intro hfalse
    unfold guardarHorario
    rw [if_pos]
    rw [normalizeReq_activo]
    exact hfalse
  · intro htrue hid
    have hq1 : (normalizeReq req).activo = true := by
      rw [normalizeReq_activo]
      exact htrue
    have hq2 : (normalizeReq req).horario_id = none := by
      rw [normalizeReq_horario_id]
      exact hid
    unfold guardarHorario
    rw [if_neg (by rw [hq1]; simp), hq2]
    dsimp only
    rw [if_pos hq1]
    refine ⟨?_, ?_, ?_⟩
    · intro h hh hser
      apply List.mem_map.mpr
      refine ⟨h, by simp [hh], ?_⟩
      rw [if_pos (by rw [hser, normalizeReq_serial])]
    · intro h hh hser
      apply List.mem_map.mpr
      refine ⟨h, by simp [hh], ?_⟩
      rw [if_neg (by rw [normalizeReq_serial]; exact hser)]
    · simp

/-- Concrete data for the C10 witness: a store holding an inactive S1
schedule and an inactive S2 schedule; a new active S1 request and an
activo = false request. -/
def c10Store : List Horario :=
  [⟨5, "S1", {2}, 60, 120, false⟩, ⟨6, "S2", {3}, 60, 120, false⟩]

def c10Req : HorarioReq := ⟨none, "S1", {1}, 780, 810, true, none⟩

def c10ReqOff : HorarioReq := ⟨none, "S1", {1}, 780, 810, false, none⟩

/-- C10, witness: the activo = false request writes nothing; the new
active S1 request flips the stored S1 schedule to active, keeps the S2
schedule untouched, and grows the table by one row. -/
theorem claim10_save_schedule_witness :
    (guardarHorario c10Store c10ReqOff 7 = c10Store)
    ∧ ({ (⟨5, "S1", {2}, 60, 120, false⟩ : Horario) with activo := true } ∈
        guardarHorario c10Store c10Req 7)
    ∧ ((⟨6, "S2", {3}, 60, 120, false⟩ : Horario) ∈
        guardarHorario c10Store c10Req 7)
    ∧ (guardarHorario c10Store c10Req 7).length = c10Store.length + 1 :=
  ⟨(claim10_save_schedule c10Store c10ReqOff 7).1 rfl,
    ((claim10_save_schedule c10Store c10Req 7).2 rfl rfl).1
      ⟨5, "S1", {2}, 60, 120, false⟩ (by simp [c10Store]) rfl,
    ((claim10_save_schedule c10Store c10Req 7).2 rfl rfl).2.1
      ⟨6, "S2", {3}, 60, 120, false⟩ (by simp [c10Store]) (by decide),
    ((claim10_save_schedule c10Store c10Req 7).2 rfl rfl).2.2⟩

end WaterKontrol
